import Mathlib

/-!
Verification development for the `vite-static-renderer` route-rendering
pipeline: a shallow embedding of the static generator's core
(`StaticGenerator`, `BrowserRenderer`, `StaticServer`, `ConfigManager`)
together with proofs about route resolution, the per-route retry loop,
batch scheduling, output-path naming, the render worker's error handling,
sitemap generation, the static server's SPA fallback, and resource
teardown order.

Strings are modelled with Lean `String`/`List Char`; asynchronous steps
are modelled as `Except String` outcomes; side effects (hook calls, page
and resource closes) are recorded in explicit event traces.
-/

namespace ViteStatic

/-- Result of one render attempt for one route (`RenderResult` in
`types.ts`).  The `error` field is `some e` exactly on failure. -/
structure RenderResult where
  route : String
  html : String
  outputPath : String
  success : Bool
  error : Option String := none
deriving DecidableEq, Repr

/-- File naming scheme (`fileNaming` in `types.ts`): `'nested' | 'flat' | 'custom'`. -/
inductive FileNaming where
  | nested
  | flat
  | custom
deriving DecidableEq, Repr

/-- One leading `/` removed if present: the JS `route.replace(/^\//, '')`
    in `BrowserRenderer.getOutputPath`. -/
def stripLeadingSlash (s : String) : String :=
  match s.data with
  | '/' :: rest => String.mk rest
  | _ => s

/-- Every `/` replaced by `-`: the JS `route.replace(/\//g, '-')` (a
    single-character global replace is a character map). -/
def slashesToDashes (s : String) : String :=
  String.mk (s.data.map fun c => if c = '/' then '-' else c)

/-- `BrowserRenderer.getOutputPath`: `customNaming` (a function, hence
    truthy whenever present) wins; otherwise `flat` joins the segments with
    dashes, and everything else (including `custom` without a function)
    falls through to the nested scheme. -/
def getOutputPath (customNaming : Option (String → String))
    (fileNaming : FileNaming) (route : String) : String :=
  match customNaming with
  | some f => f route
  | none =>
    if fileNaming = FileNaming.flat then
      (if route = "/" then "index" else slashesToDashes (stripLeadingSlash route)) ++ ".html"
    else if route = "/" then
      "index.html"
    else
      stripLeadingSlash route ++ "/index.html"

/-! ### The per-route retry loop (`StaticGenerator.renderRoutes`)

```js
let result; let attempts = 0;
do { result = await renderer.render(serverUrl, route); attempts++; }
while (!result.success && attempts < this.config.retries);
```

The worker is modelled as a function from the 0-based attempt index to
that attempt's `RenderResult`.  `retryFrom render retries attempts`
returns the kept result together with the final value of `attempts`. -/

/-- The do/while retry loop, entered with counter value `attempts`. -/
def retryFrom (render : Nat → RenderResult) (retries : Nat)
    (attempts : Nat) : RenderResult × Nat :=
  let result := render attempts
  let a := attempts + 1
  if ¬ result.success = true ∧ a < retries then
    retryFrom render retries a
  else
    (result, a)
termination_by retries - attempts

/-- The loop as the scheduler runs it (counter starts at 0). -/
def renderWithRetries (render : Nat → RenderResult) (retries : Nat) :
    RenderResult × Nat :=
  retryFrom render retries 0

/-- When every attempt fails, the loop started at counter `a` runs until
    the counter reaches `max retries (a+1)` and keeps the last attempt. -/
theorem retryFrom_all_fail (render : Nat → RenderResult) (retries : Nat)
    (hfail : ∀ i, (render i).success = false) :
    ∀ a, retryFrom render retries a =
      (render (max retries (a + 1) - 1), max retries (a + 1)) := by
  suffices h : ∀ n a, retries - a ≤ n → retryFrom render retries a =
      (render (max retries (a + 1) - 1), max retries (a + 1)) by
    intro a
    exact h (retries - a) a le_rfl
  intro n
  induction n with
  | zero =>
    intro a ha
    rw [retryFrom]
    have hlt : ¬ a + 1 < retries := by omega
    simp only [hfail a, Bool.false_eq_true, not_false_iff, true_and, if_neg hlt]
    have : max retries (a + 1) = a + 1 := by omega
    rw [this]
    simp
  | succ n ih =>
    intro a _
    rw [retryFrom]
    simp only [hfail a, Bool.false_eq_true, not_false_iff, true_and]
    by_cases hlt : a + 1 < retries
    · rw [if_pos hlt, ih (a + 1) (by omega)]
      have : max retries (a + 1 + 1) = max retries (a + 1) := by omega
      rw [this]
    · rw [if_neg hlt]
      have : max retries (a + 1) = a + 1 := by omega
      rw [this]
      simp

/-- When the first success is at 0-based index `j`, and the loop can
    reach `j` (either it starts there or `j < retries`), it stops there
    with counter `j + 1`, keeping the successful result. -/
theorem retryFrom_first_success (render : Nat → RenderResult) (retries : Nat)
    (j : Nat) (hsucc : (render j).success = true)
    (hbefore : ∀ i, i < j → (render i).success = false) :
    ∀ a, a ≤ j → (a = j ∨ j < retries) →
      retryFrom render retries a = (render j, j + 1) := by
  suffices h : ∀ n a, j - a ≤ n → a ≤ j → (a = j ∨ j < retries) →
      retryFrom render retries a = (render j, j + 1) by
    intro a
    exact h (j - a) a le_rfl
  intro n
  induction n with
  | zero =>
    intro a ha haj _
    have heq : a = j := by omega
    subst heq
    rw [retryFrom]
    simp [hsucc]
  | succ n ih =>
    intro a _ haj hreach
    rw [retryFrom]
    by_cases heq : a = j
    · subst heq
      simp [hsucc]
    · have halt : a < j := lt_of_le_of_ne haj heq
      have hjr : j < retries := by
        rcases hreach with h1 | h1
        · exact absurd h1 heq
        · exact h1
      have hfa := hbefore a halt
      simp only [hfa, Bool.false_eq_true, not_false_iff, true_and]
      have hlt : a + 1 < retries := by omega
      rw [if_pos hlt]
      exact ih (a + 1) (by omega) (by omega) (by omega)

/-! ### Batch scheduling (`StaticGenerator.renderRoutes`)

```js
const parallelBatches = Math.ceil(routes.length / this.config.parallel);
for (let i = 0; i < parallelBatches; i++) {
  const batch = routes.slice(i * parallel, (i + 1) * parallel);
  const batchResults = await Promise.all(batch.map(route => retry-loop ...));
  results.push(...batchResults);
}
```

Modelled for `parallel ≥ 1` (with `parallel = 0` the JS loop would never
terminate).  `Promise.all` preserves the order of its input array, so a
batch's results are the batch's routes mapped through the retry loop. -/

/-- `Math.ceil(n / parallel)` for natural `n` and positive `parallel`. -/
def numBatches (parallel n : Nat) : Nat := (n + parallel - 1) / parallel

/-- The per-route work: the retry loop around `renderer.render`, keeping
    the final result.  `render route i` is attempt `i` (0-based) for `route`. -/
def retryWorker (render : String → Nat → RenderResult) (retries : Nat)
    (route : String) : RenderResult :=
  (retryFrom (render route) retries 0).1

/-- The batches: `routes.slice(i * parallel, (i + 1) * parallel)` for
    `i < parallelBatches`. -/
def routeBatches (parallel : Nat) (routes : List String) : List (List String) :=
  (List.range (numBatches parallel routes.length)).map
    (fun i => (routes.drop (i * parallel)).take parallel)

/-- `StaticGenerator.renderRoutes`: batch-by-batch concatenation of each
    batch mapped through the retry loop. -/
def renderRoutes (render : String → Nat → RenderResult)
    (parallel retries : Nat) (routes : List String) : List RenderResult :=
  (List.range (numBatches parallel routes.length)).flatMap
    (fun i => ((routes.drop (i * parallel)).take parallel).map
      (retryWorker render retries))

theorem range_bind_slices {α : Type} (p : Nat) (routes : List α) :
    ∀ k, (List.range k).flatMap (fun i => (routes.drop (i * p)).take p) =
      routes.take (k * p) := by
  intro k
  induction k with
  | zero => simp
  | succ k ih =>
    rw [List.range_succ, List.flatMap_append, ih]
    simp only [List.flatMap_cons, List.flatMap_nil, List.append_nil]
    rw [Nat.succ_mul, List.take_add]

theorem numBatches_mul_ge (p n : Nat) (hp : 0 < p) : n ≤ numBatches p n * p := by
  have h := (Nat.div_lt_iff_lt_mul hp).mp (Nat.lt_succ_self ((n + p - 1) / p))
  unfold numBatches
  rw [Nat.succ_mul] at h
  omega

theorem join_routeBatches (p : Nat) (routes : List String) (hp : 0 < p) :
    (routeBatches p routes).flatten = routes := by
  unfold routeBatches
  rw [← List.flatMap_def, range_bind_slices]
  exact List.take_of_length_le (numBatches_mul_ge p routes.length hp)

theorem renderRoutes_eq_map (render : String → Nat → RenderResult)
    (p retries : Nat) (routes : List String) (hp : 0 < p) :
    renderRoutes render p retries routes =
      routes.map (retryWorker render retries) := by
  unfold renderRoutes
  have h : ∀ i, ((routes.drop (i * p)).take p).map (retryWorker render retries) =
      (((routes.map (retryWorker render retries)).drop (i * p)).take p) := by
    intro i
    rw [List.map_take, List.map_drop]
  simp only [h]
  rw [range_bind_slices]
  have hlen : (routes.map (retryWorker render retries)).length = routes.length := by
    simp
  exact List.take_of_length_le (by rw [hlen]; exact numBatches_mul_ge p routes.length hp)

/-- A worker whose every attempt fails. -/
def alwaysFailWorker : Nat → RenderResult := fun _ =>
  { route := "/", html := "", outputPath := "index.html",
    success := false, error := some "net::ERR timeout" }

/-- A worker that fails on attempt 1 and succeeds from attempt 2 on. -/
def secondTrySucceeds : Nat → RenderResult := fun i =>
  if i = 0 then
    { route := "/", html := "", outputPath := "index.html",
      success := false, error := some "net::ERR timeout" }
  else
    { route := "/", html := "<html></html>", outputPath := "index.html",
      success := true }

/-- C1, counterexample: with `retries = 0` the do/while loop still performs
one render attempt (its body runs before the guard), so the claim's
"exactly R attempts when every attempt fails" is false at `R = 0`. -/
theorem C1_counterexample :
    (renderWithRetries alwaysFailWorker 0).2 = 1 ∧ (1 : Nat) ≠ 0 := by
  constructor
  · rw [renderWithRetries, retryFrom]
    simp [alwaysFailWorker]
  · decide

/-- C1 (amended): for every worker and configured retries value `R`, the
per-route retry loop performs exactly `max R 1` attempts when every attempt
fails, keeping the last attempt's failed result, and exactly `K` attempts
when the worker first succeeds on attempt `K ≤ max R 1`, keeping that
successful result. -/
theorem C1_retry_loop (render : Nat → RenderResult) (R : Nat) :
    ((∀ i, (render i).success = false) →
      renderWithRetries render R = (render (max R 1 - 1), max R 1)) ∧
    (∀ K, 1 ≤ K → K ≤ max R 1 → (render (K - 1)).success = true →
      (∀ i, i < K - 1 → (render i).success = false) →
      renderWithRetries render R = (render (K - 1), K)) := by
  constructor
  · intro hfail
    have h := retryFrom_all_fail render R hfail 0
    simpa [renderWithRetries] using h
  · intro K hK1 hKR hsucc hbefore
    have h := retryFrom_first_success render R (K - 1) hsucc hbefore 0
      (by omega) (by omega)
    have hK : K - 1 + 1 = K := by omega
    rw [hK] at h
    exact h

/-- C1, witness: with `retries = 3`, an always-failing worker is attempted
exactly 3 times and the last failure is kept; a worker succeeding on
attempt 2 is attempted exactly twice and the success is kept. -/
theorem C1_retry_loop_witness :
    renderWithRetries alwaysFailWorker 3 = (alwaysFailWorker 2, 3) ∧
    renderWithRetries secondTrySucceeds 3 = (secondTrySucceeds 1, 2) := by
  constructor
  · have h := (C1_retry_loop alwaysFailWorker 3).1 (fun i => rfl)
    simpa using h
  · have h := (C1_retry_loop secondTrySucceeds 3).2 2 (by omega) (by decide)
      (by decide) (by intro i hi; have hz : i = 0 := Nat.lt_one_iff.mp hi; subst hz; decide)
    simpa using h

/-- C6: for every route list and `parallel ≥ 1`, the scheduler partitions
the list into consecutive windows of size `parallel` (every window but
possibly the last has exactly that size, the last at most), and the
returned result list is the batch-by-batch concatenation of those
contiguous slices mapped through the per-route worker — hence exactly one
result per route, in route-list order. -/
theorem C6_batch_partition (render : String → Nat → RenderResult)
    (p retries : Nat) (routes : List String) (hp : 0 < p) :
    (routeBatches p routes).flatten = routes ∧
    (∀ b ∈ routeBatches p routes, b.length ≤ p) ∧
    (∀ i, i + 1 < numBatches p routes.length →
      ((routes.drop (i * p)).take p).length = p) ∧
    renderRoutes render p retries routes =
      ((routeBatches p routes).map (List.map (retryWorker render retries))).flatten ∧
    renderRoutes render p retries routes = routes.map (retryWorker render retries) ∧
    (renderRoutes render p retries routes).length = routes.length := by
  refine ⟨join_routeBatches p routes hp, ?_, ?_, ?_, renderRoutes_eq_map render p retries routes hp, ?_⟩
  · intro b hb
    rw [routeBatches, List.mem_map] at hb
    obtain ⟨i, _, hi⟩ := hb
    rw [← hi]
    exact List.length_take_le _ _
  · intro i hi
    have h2 : i + 2 ≤ numBatches p routes.length := hi
    have h3 : (i + 2) * p ≤ routes.length + p - 1 :=
      (Nat.le_div_iff_mul_le hp).mp h2
    rw [add_mul] at h3
    have hlen : i * p + p ≤ routes.length := by omega
    rw [List.length_take, List.length_drop]
    omega
  · rw [renderRoutes, routeBatches, List.map_map, ← List.flatMap_def]
    rfl
  · rw [renderRoutes_eq_map render p retries routes hp, List.length_map]

/-- C6, witness: three routes with `parallel = 2` split into the windows
`[r1, r2]` and `[r3]`, and the results are one per route in order. -/
theorem C6_batch_partition_witness :
    (routeBatches 2 ["/", "/a", "/b"]).flatten = ["/", "/a", "/b"] ∧
    renderRoutes (fun _ => secondTrySucceeds) 2 3 ["/", "/a", "/b"] =
      ["/", "/a", "/b"].map (retryWorker (fun _ => secondTrySucceeds) 3) := by
  have h := C6_batch_partition (fun _ => secondTrySucceeds) 2 3
    ["/", "/a", "/b"] (by decide)
  exact ⟨h.1, h.2.2.2.2.1⟩

/-! ### Output-path naming (claim-side segment formulation)

The spec phrases `flat` naming as "slash-segments joined with `-`"; the
code strips one leading slash and maps every remaining `/` to `-`.  The
two are proved to coincide. -/

/-- Slash-segments of a character list (split on `/`). -/
def splitSlash : List Char → List (List Char)
  | [] => [[]]
  | c :: cs =>
    if c = '/' then [] :: splitSlash cs
    else
      match splitSlash cs with
      | s :: rest => (c :: s) :: rest
      | [] => [[c]]

/-- Segments joined with a dash separator. -/
def joinDash : List (List Char) → List Char
  | [] => []
  | [s] => s
  | s :: rest => s ++ '-' :: joinDash rest

theorem splitSlash_ne_nil (cs : List Char) : splitSlash cs ≠ [] := by
  cases cs with
  | nil => simp [splitSlash]
  | cons c cs =>
    rw [splitSlash]
    by_cases hc : c = '/'
    · simp [hc]
    · rw [if_neg hc]
      cases h : splitSlash cs with
      | nil => simp
      | cons s rest => simp

theorem joinDash_splitSlash (cs : List Char) :
    joinDash (splitSlash cs) = cs.map (fun c => if c = '/' then '-' else c) := by
  induction cs with
  | nil => rfl
  | cons c cs ih =>
    obtain ⟨s, rest, hsr⟩ := List.exists_cons_of_ne_nil (splitSlash_ne_nil cs)
    by_cases hc : c = '/'
    · subst hc
      rw [splitSlash, if_pos rfl, hsr]
      rw [hsr] at ih
      simp only [joinDash, List.map_cons, if_pos rfl, List.nil_append]
      rw [← ih]
      simp
    · rw [splitSlash, if_neg hc, hsr]
      rw [hsr] at ih
      cases rest with
      | nil =>
        simp only [joinDash, List.map_cons, if_neg hc]
        rw [← ih]
        simp [joinDash]
      | cons r rs =>
        simp only [joinDash, List.map_cons, if_neg hc, List.cons_append]
        rw [← ih]
        simp [joinDash]

/-- C3: the computed output path follows the naming rule — `customNaming`,
when set, is used unconditionally regardless of `fileNaming`; otherwise
`flat` maps `/` to `index.html` and any other route to its slash-segments
joined with `-` plus `.html`, and `nested` maps `/` to `index.html` and any
other route to the path without its leading slash followed by
`/index.html`. -/
theorem C3_output_path (f : String → String) (fn : FileNaming) (route : String) :
    getOutputPath (some f) fn route = f route ∧
    getOutputPath none FileNaming.flat "/" = "index.html" ∧
    (route ≠ "/" → getOutputPath none FileNaming.flat route =
      String.mk (joinDash (splitSlash (stripLeadingSlash route).data)) ++ ".html") ∧
    getOutputPath none FileNaming.nested "/" = "index.html" ∧
    (route ≠ "/" → getOutputPath none FileNaming.nested route =
      stripLeadingSlash route ++ "/index.html") := by
  refine ⟨rfl, rfl, ?_, rfl, ?_⟩
  · intro hne
    rw [getOutputPath]
    simp only [if_pos rfl, if_neg hne]
    rw [joinDash_splitSlash]
    rfl
  · intro hne
    rw [getOutputPath]
    simp [hne]

/-- C3, witness: `customNaming` overrides `flat`; `flat` maps
`/about/team` to `about-team.html`; `nested` maps `/about` to
`about/index.html`. -/
theorem C3_output_path_witness :
    getOutputPath (some (fun _ => "c.html")) FileNaming.flat "/about/team" = "c.html" ∧
    getOutputPath none FileNaming.flat "/about/team" = "about-team.html" ∧
    getOutputPath none FileNaming.nested "/about" = "about/index.html" := by
  refine ⟨(C3_output_path (fun _ => "c.html") FileNaming.flat "/about/team").1, ?_, ?_⟩
  · have h := (C3_output_path id FileNaming.flat "/about/team").2.2.1 (by decide)
    rw [h]
    decide
  · have h := (C3_output_path id FileNaming.nested "/about").2.2.2.2 (by decide)
    rw [h]
    decide

/-! ### Route resolution (`StaticGenerator.resolveRoutes`)

A JS `Set` preserves first-seen insertion order, and `Array.from` returns
that order; `Set.add` is modelled by `addRoute`. -/

/-- `Set.prototype.add`: append unless already present. -/
def addRoute (acc : List String) (r : String) : List String :=
  if r ∈ acc then acc else acc ++ [r]

/-- The `routes` config field: a static list or a route-producing
    callback (whose returned list is modelled directly). -/
inductive RoutesField where
  | staticRoutes (l : List String)
  | routesCallback (l : List String)

/-- The list of routes contributed by the `routes` field. -/
def routesFieldList : RoutesField → List String
  | .staticRoutes l => l
  | .routesCallback l => l

/-- `StaticGenerator.resolveRoutes`: add the static/callback routes, then
    each dynamic generator's routes in declaration order; return the
    set's insertion order. -/
def resolveRoutes (rf : RoutesField) (gens : List (List String)) : List String :=
  let base :=
    match rf with
    | .staticRoutes l => l.foldl addRoute []
    | .routesCallback l => l.foldl addRoute []
  gens.foldl (fun acc g => g.foldl addRoute acc) base

/-- Spec-side formulation: keep the first occurrence of each element. -/
def firstSeenDedup : List String → List String
  | [] => []
  | x :: xs => x :: firstSeenDedup (xs.filter (fun r => r != x))
termination_by l => l.length
decreasing_by
  simp only [List.length_cons]
  have := List.length_filter_le (fun r => r != x) xs
  omega

theorem mem_firstSeenDedup (r : String) :
    ∀ l, r ∈ firstSeenDedup l ↔ r ∈ l := by
  suffices h : ∀ n l, l.length ≤ n → (r ∈ firstSeenDedup l ↔ r ∈ l) by
    intro l
    exact h l.length l le_rfl
  intro n
  induction n with
  | zero =>
    intro l hl
    have : l = [] := List.length_eq_zero.mp (by omega)
    subst this
    simp [firstSeenDedup]
  | succ n ih =>
    intro l hl
    cases l with
    | nil => simp [firstSeenDedup]
    | cons x xs =>
      rw [firstSeenDedup]
      have hlen : (xs.filter (fun r => r != x)).length ≤ n := by
        have := List.length_filter_le (fun r => r != x) xs
        simp only [List.length_cons] at hl
        omega
      simp only [List.mem_cons, ih _ hlen, List.mem_filter, bne_iff_ne, ne_eq,
        decide_eq_true_eq]
      constructor
      · rintro (h | ⟨h, _⟩)
        · exact Or.inl h
        · exact Or.inr h
      · rintro (h | h)
        · exact Or.inl h
        · by_cases hrx : r = x
          · exact Or.inl hrx
          · exact Or.inr ⟨h, hrx⟩

theorem nodup_firstSeenDedup :
    ∀ l : List String, (firstSeenDedup l).Nodup := by
  suffices h : ∀ n (l : List String), l.length ≤ n → (firstSeenDedup l).Nodup by
    intro l
    exact h l.length l le_rfl
  intro n
  induction n with
  | zero =>
    intro l hl
    have : l = [] := List.length_eq_zero.mp (by omega)
    subst this
    simp [firstSeenDedup]
  | succ n ih =>
    intro l hl
    cases l with
    | nil => simp [firstSeenDedup]
    | cons x xs =>
      rw [firstSeenDedup]
      have hlen : (xs.filter (fun r => r != x)).length ≤ n := by
        have := List.length_filter_le (fun r => r != x) xs
        simp only [List.length_cons] at hl
        omega
      refine List.nodup_cons.mpr ⟨?_, ih _ hlen⟩
      intro hmem
      rw [mem_firstSeenDedup, List.mem_filter] at hmem
      simp at hmem

theorem foldl_addRoute (l : List String) :
    ∀ acc, l.foldl addRoute acc =
      acc ++ firstSeenDedup (l.filter (fun r => decide (r ∉ acc))) := by
  induction l with
  | nil => intro acc; simp [firstSeenDedup]
  | cons x xs ih =>
    intro acc
    rw [List.foldl_cons, ih (addRoute acc x)]
    by_cases hx : x ∈ acc
    · rw [addRoute, if_pos hx, List.filter_cons]
      simp only [hx, not_true_eq_false, decide_False, Bool.false_eq_true, if_neg]
      rfl
    · rw [addRoute, if_neg hx, List.filter_cons]
      simp only [hx, not_false_eq_true, decide_True, if_pos]
      rw [firstSeenDedup, List.filter_filter]
      have hfil : ∀ a ∈ xs,
          ((a != x) && decide (a ∉ acc)) = decide (a ∉ acc ++ [x]) := by
        intro a _
        by_cases h1 : a ∈ acc <;> by_cases h2 : a = x <;>
          simp [h1, h2, List.mem_append]
      rw [List.filter_congr hfil]
      simp

/-- C7: route resolution returns each unique route exactly once, in
first-seen insertion order of the union of the static/callback routes and
the dynamic generators' routes in declaration order. -/
theorem C7_resolve_dedup (rf : RoutesField) (gens : List (List String)) :
    resolveRoutes rf gens = firstSeenDedup (routesFieldList rf ++ gens.flatten) ∧
    (resolveRoutes rf gens).Nodup ∧
    (∀ r, r ∈ resolveRoutes rf gens ↔ r ∈ routesFieldList rf ++ gens.flatten) := by
  have hbase : resolveRoutes rf gens =
      (routesFieldList rf ++ gens.flatten).foldl addRoute [] := by
    unfold resolveRoutes
    have hgens : ∀ (gs : List (List String)) (acc : List String),
        gs.foldl (fun acc g => g.foldl addRoute acc) acc =
          gs.flatten.foldl addRoute acc := by
      intro gs
      induction gs with
      | nil => intro acc; rfl
      | cons g gs ihg =>
        intro acc
        rw [List.foldl_cons, ihg, List.flatten_cons, List.foldl_append]
    rw [List.foldl_append]
    cases rf <;> simp [routesFieldList, hgens]
  have heq : resolveRoutes rf gens =
      firstSeenDedup (routesFieldList rf ++ gens.flatten) := by
    rw [hbase, foldl_addRoute]
    simp only [List.not_mem_nil, not_false_eq_true, decide_True, List.nil_append]
    rw [List.filter_true]
  refine ⟨heq, ?_, ?_⟩
  · rw [heq]
    exact nodup_firstSeenDedup _
  · intro r
    rw [heq, mem_firstSeenDedup]

/-! ### The render worker (`BrowserRenderer.render`)

One `render` call is embedded as a function of the configuration, a
`PageModel` giving the outcomes of the page operations for this attempt
(navigation, selector wait, content extraction), and the route.  Hook and
page-operation failures are `Except.error` values; the call's side
effects (the `onError` hook invocation and the `finally` page close) are
returned as an event trace. -/

/-- ASCII whitespace, approximating the JS regex class `\s`. -/
def isWsChar (c : Char) : Bool :=
  c == ' ' || c == '\t' || c == '\n' || c == '\r' || c == '\x0b' || c == '\x0c'

/-- JS `String.prototype.replace` with a plain-string pattern: replace
    the first occurrence only. -/
def replaceFirstL (pat rep : List Char) : List Char → List Char
  | [] => if pat = [] then rep else []
  | c :: cs =>
    if pat.isPrefixOf (c :: cs) then rep ++ (c :: cs).drop pat.length
    else c :: replaceFirstL pat rep cs

/-- `Object.entries(injectMeta).map(([name, content]) => ...).join('\n  ')`. -/
def metaTagsString (meta : List (String × String)) : String :=
  String.intercalate "\n  "
    (meta.map fun p => "<meta name=\"" ++ p.1 ++ "\" content=\"" ++ p.2 ++ "\">")

/-- `html.replace(/\s+/g, ' ')`: collapse each whitespace run to one
    space (`prevWs` tracks whether the previous character was part of a
    run already emitted). -/
def collapseWsAux (prevWs : Bool) : List Char → List Char
  | [] => []
  | c :: cs =>
    if isWsChar c then
      if prevWs then collapseWsAux true cs else ' ' :: collapseWsAux true cs
    else c :: collapseWsAux false cs

theorem dropWhile_length_le (p : Char → Bool) (l : List Char) :
    (l.dropWhile p).length ≤ l.length := by
  induction l with
  | nil => simp
  | cons c cs ih =>
    rw [List.dropWhile_cons]
    split
    · simp only [List.length_cons]
      omega
    · simp

/-- `html.replace(/>\s+</g, '><')`: drop whitespace runs between `>` and
    `<`; scanning resumes after each replacement. -/
def stripInterTagAux : List Char → List Char
  | [] => []
  | c :: cs =>
    if c = '>' then
      match hrest : cs.dropWhile isWsChar with
      | '<' :: rest2 =>
        if (cs.takeWhile isWsChar).length > 0 then
          '>' :: '<' :: stripInterTagAux rest2
        else '>' :: stripInterTagAux cs
      | _ => '>' :: stripInterTagAux cs
    else c :: stripInterTagAux cs
termination_by l => l.length
decreasing_by
  · simp only [List.length_cons]
    have h1 : (cs.dropWhile isWsChar).length ≤ cs.length :=
      dropWhile_length_le isWsChar cs
    rw [hrest] at h1
    simp only [List.length_cons] at h1
    omega
  · simp
  · simp
  · simp

/-- JS `String.prototype.trim` (over ASCII whitespace). -/
def trimWsL (l : List Char) : List Char :=
  ((l.dropWhile isWsChar).reverse.dropWhile isWsChar).reverse

/-- The render worker's configuration slice (`Required<RenderConfig>` as
    `BrowserRenderer` consumes it).  Hooks are optional fallible
    functions; `onError`'s own behaviour is external, so only its
    presence is modelled. -/
structure RendererConfig where
  beforeRender : Option (String → Except String Unit)
  afterRender : Option (String → String → Except String String)
  hasOnError : Bool
  waitForSelector : Option String
  injectMeta : List (String × String)
  minifyHtml : Bool
  customNaming : Option (String → String)
  fileNaming : FileNaming

/-- Outcomes of the page operations for one attempt. -/
structure PageModel where
  gotoResult : Except String Unit
  waitSelectorResult : Except String Unit
  contentResult : Except String String

/-- Observable side effects of one `render` call. -/
inductive RenderEvent where
  | pageClosed
  | onErrorCalled (route : String) (err : String)
deriving DecidableEq, Repr

/-- `BrowserRenderer.postProcess`: meta-tag injection right after the
    first `<head>` (only when `injectMeta` is non-empty), then optional
    minification (collapse whitespace runs, drop whitespace between
    adjacent tags, trim). -/
def postProcess (cfg : RendererConfig) (html : String) : String :=
  let h1 :=
    if cfg.injectMeta.length > 0 then
      String.mk (replaceFirstL "<head>".data
        ("<head>\n  " ++ metaTagsString cfg.injectMeta).data html.data)
    else html
  if cfg.minifyHtml then
    String.mk (trimWsL (stripInterTagAux (collapseWsAux false h1.data)))
  else h1

/-- `this.config.beforeRender?.(route)`. -/
def runBeforeRender (h : Option (String → Except String Unit))
    (route : String) : Except String Unit :=
  match h with
  | some f => f route
  | none => Except.ok ()

/-- `if (this.config.waitFor.selector) await page.waitForSelector(...)`:
    a JS string is truthy iff non-empty. -/
def runWaitSelector (sel : Option String) (page : PageModel) :
    Except String Unit :=
  match sel with
  | some s => if s ≠ "" then page.waitSelectorResult else Except.ok ()
  | none => Except.ok ()

/-- `await this.config.afterRender?.(route, html);` — note the return
    value is discarded by the source. -/
def runAfterRender (h : Option (String → String → Except String String))
    (route html : String) : Except String Unit :=
  match h with
  | some f =>
    match f route html with
    | Except.ok _ => Except.ok ()
    | Except.error e => Except.error e
  | none => Except.ok ()

/-- Steps 2–6 of a render attempt (the body of the `try`).  Returns the
    html that a successful attempt records. -/
def renderSteps (cfg : RendererConfig) (page : PageModel) (route : String) :
    Except String String := do
  runBeforeRender cfg.beforeRender route
  page.gotoResult
  runWaitSelector cfg.waitForSelector page
  let html ← page.contentResult
  let html2 := postProcess cfg html
  runAfterRender cfg.afterRender route html2
  pure html2

/-- `BrowserRenderer.render`: the `try/catch/finally` around
    `renderSteps`.  On failure the `onError` hook runs (when configured)
    and a failed `RenderResult` carrying the error is returned; the page
    is closed on both paths. -/
def render (cfg : RendererConfig) (page : PageModel) (route : String) :
    RenderResult × List RenderEvent :=
  match renderSteps cfg page route with
  | Except.ok html =>
    ({ route := route, html := html,
       outputPath := getOutputPath cfg.customNaming cfg.fileNaming route,
       success := true, error := none }, [RenderEvent.pageClosed])
  | Except.error e =>
    ({ route := route, html := "",
       outputPath := getOutputPath cfg.customNaming cfg.fileNaming route,
       success := false, error := some e },
     (if cfg.hasOnError then [RenderEvent.onErrorCalled route e] else [])
       ++ [RenderEvent.pageClosed])

/-- C5: if any step of a render attempt fails with error `e`, `render`
returns (rather than propagates) a failed `RenderResult` with `success =
false`, empty `html` and `error = some e`, invoking `onError` when
configured; and on every exit path, success or failure, the page context
is closed. -/
theorem C5_render_error_handling (cfg : RendererConfig) (page : PageModel)
    (route e : String) :
    RenderEvent.pageClosed ∈ (render cfg page route).2 ∧
    (renderSteps cfg page route = Except.error e →
      (render cfg page route).1 =
        { route := route, html := "",
          outputPath := getOutputPath cfg.customNaming cfg.fileNaming route,
          success := false, error := some e } ∧
      (cfg.hasOnError = true →
        RenderEvent.onErrorCalled route e ∈ (render cfg page route).2)) := by
  constructor
  · cases h : renderSteps cfg page route <;> simp [render, h]
  · intro herr
    rw [render, herr]
    refine ⟨rfl, ?_⟩
    intro hOn
    simp [hOn]

/-- A page whose navigation fails. -/
def failNavPage : PageModel :=
  { gotoResult := Except.error "net::ERR_CONNECTION_REFUSED",
    waitSelectorResult := Except.ok (),
    contentResult := Except.ok "<html><head></head><body></body></html>" }

/-- A renderer configuration with an `onError` hook and defaults
    elsewhere. -/
def cfgWithOnError : RendererConfig :=
  { beforeRender := none, afterRender := none, hasOnError := true,
    waitForSelector := none, injectMeta := [], minifyHtml := false,
    customNaming := none, fileNaming := FileNaming.nested }

/-- C5, witness: a failed navigation yields the failed `RenderResult`
carrying the navigation error, the `onError` call, and the page close. -/
theorem C5_render_error_handling_witness :
    (render cfgWithOnError failNavPage "/a").1 =
      { route := "/a", html := "", outputPath := "a/index.html",
        success := false, error := some "net::ERR_CONNECTION_REFUSED" } ∧
    RenderEvent.onErrorCalled "/a" "net::ERR_CONNECTION_REFUSED" ∈
      (render cfgWithOnError failNavPage "/a").2 ∧
    RenderEvent.pageClosed ∈ (render cfgWithOnError failNavPage "/a").2 := by
  have h := C5_render_error_handling cfgWithOnError failNavPage "/a"
    "net::ERR_CONNECTION_REFUSED"
  refine ⟨((h.2 rfl).1).trans (by decide), (h.2 rfl).2 rfl, h.1⟩

/-- An `afterRender` hook returning a replacement html. -/
def replacingAfterRender : String → String → Except String String :=
  fun _ _ => Except.ok "REPLACED"

/-- A renderer configuration whose `afterRender` hook returns `"REPLACED"`. -/
def cfgReplacingHook : RendererConfig :=
  { beforeRender := none, afterRender := some replacingAfterRender,
    hasOnError := false, waitForSelector := none, injectMeta := [],
    minifyHtml := false, customNaming := none,
    fileNaming := FileNaming.nested }

/-- A page whose content extraction yields `"<p>x</p>"`. -/
def okPage : PageModel :=
  { gotoResult := Except.ok (), waitSelectorResult := Except.ok (),
    contentResult := Except.ok "<p>x</p>" }

/-- C2: the source discards `afterRender`'s return value
(`await this.config.afterRender?.(route, html);` with no assignment), so
a successful `RenderResult`'s `html` is the post-processed extracted
html, not the hook's return value — contradicting `types.ts`'s
`afterRender` return type, the default "pass-through" hook in
`config.ts`, and the README's "modify HTML before writing" example. -/
theorem C2_afterRender_discarded :
    (render cfgReplacingHook okPage "/a").1.success = true ∧
    replacingAfterRender "/a" "<p>x</p>" = Except.ok "REPLACED" ∧
    (render cfgReplacingHook okPage "/a").1.html = "<p>x</p>" ∧
    (render cfgReplacingHook okPage "/a").1.html ≠ "REPLACED" := by
  refine ⟨rfl, rfl, rfl, ?_⟩
  decide

/-! ### The static file server (`StaticServer.handleRequest`)

The filesystem is a function from paths to optional nodes; `stat` on a
missing path rejects, which the source treats as "does not exist". -/

/-- A filesystem node kind (`stats.isDirectory()`). -/
inductive FsNode where
  | file
  | dir
deriving DecidableEq, Repr

/-- HTTP outcomes of `handleRequest` (200 with the served file's path,
    404, or the catch-all 500). -/
inductive HttpResponse where
  | okFile (path : String)
  | notFound
  | serverError
deriving DecidableEq, Repr

/-- Node's `path.join(a, b)`, restricted to the shapes used here (no
    `..`/`.` normalisation): one separator between the parts. -/
def joinPath (a b : String) : String :=
  match b.data with
  | '/' :: _ => a ++ b
  | _ => a ++ "/" ++ b

/-- `readFile` + 200 response, with any read error reaching the
    catch-all 500 handler. -/
def serveFile (fs : String → Option FsNode) (p : String) : HttpResponse :=
  match fs p with
  | some FsNode.file => HttpResponse.okFile p
  | _ => HttpResponse.serverError

/-- `StaticServer.handleRequest`: map the pathname under the root;
    directories get `index.html` appended; a missing path falls back to
    the root `index.html` when the pathname contains no `.` anywhere
    (`!url.pathname.includes('.')`), else 404. -/
def handleRequest (fs : String → Option FsNode) (rootDir pathname : String) :
    HttpResponse :=
  let filePath := joinPath rootDir pathname
  match fs filePath with
  | some FsNode.dir => serveFile fs (joinPath filePath "index.html")
  | some FsNode.file => serveFile fs filePath
  | none =>
    if pathname.data.contains '.' = false then
      serveFile fs (joinPath rootDir "index.html")
    else HttpResponse.notFound

/-- The last slash-segment of a pathname (the claim's "last segment"). -/
def lastSegment (pathname : String) : String :=
  String.mk ((splitSlash pathname.data).getLastD [])

/-- A filesystem with only a root `index.html`. -/
def demoFs : String → Option FsNode :=
  fun p => if p = "/site/index.html" then some FsNode.file else none

/-- C4, counterexample: for pathname `/v1.2/about` the last segment
(`about`) has no `.`, so the claim requires the SPA fallback; but the
source tests the whole pathname for `.` and answers 404. -/
theorem C4_counterexample :
    (lastSegment "/v1.2/about").data.contains '.' = false ∧
    handleRequest demoFs "/site" "/v1.2/about" = HttpResponse.notFound ∧
    serveFile demoFs (joinPath "/site" "index.html") =
      HttpResponse.okFile "/site/index.html" ∧
    HttpResponse.notFound ≠ HttpResponse.okFile "/site/index.html" := by
  refine ⟨by decide, by decide, by decide, by decide⟩

/-- C4 (amended): when the mapped path does not exist, the server serves
the root `index.html` if the *whole pathname* contains no `.`, and
responds 404 if the pathname contains a `.` anywhere. -/
theorem C4_spa_fallback (fs : String → Option FsNode)
    (rootDir pathname : String)
    (hmiss : fs (joinPath rootDir pathname) = none) :
    (pathname.data.contains '.' = false →
      handleRequest fs rootDir pathname =
        serveFile fs (joinPath rootDir "index.html")) ∧
    (pathname.data.contains '.' = true →
      handleRequest fs rootDir pathname = HttpResponse.notFound) := by
  constructor
  · intro h
    have h2 : '.' ∉ pathname.data := by simpa using h
    simp [handleRequest, hmiss, h2]
  · intro h
    have h2 : '.' ∈ pathname.data := by simpa using h
    simp [handleRequest, hmiss, h2]

/-- C4, witness: under a root with only `index.html`, an extensionless
missing pathname gets the SPA fallback and a dotted missing pathname
gets 404. -/
theorem C4_spa_fallback_witness :
    handleRequest demoFs "/site" "/about" =
      serveFile demoFs (joinPath "/site" "index.html") ∧
    handleRequest demoFs "/site" "/style.css" = HttpResponse.notFound := by
  exact ⟨(C4_spa_fallback demoFs "/site" "/about" (by decide)).1 (by decide),
         (C4_spa_fallback demoFs "/site" "/style.css" (by decide)).2 (by decide)⟩

/-! ### Sitemap generation (`StaticGenerator._generateSitemap`, `_globToRegex`)

`_globToRegex` produces the anchored regex `^a₁a₂…$` in which `*` becomes
`.*` and every other pattern character (backslash-escaped when special)
is a literal atom.  Its acceptance relation is embedded as an executable
matcher (`.*` is modelled as matching any character sequence; JS `.`
excludes line terminators, immaterial for route strings).  The matcher
recurses on pattern+input length, made structural with a fuel counter. -/

/-- Acceptance of the `_globToRegex` regex, with fuel: each step consumes
    a pattern atom or an input character, so `|p| + |s| + 1` fuel always
    suffices. -/
def globMatchFuel : Nat → List Char → List Char → Bool
  | 0, _, _ => false
  | _ + 1, [], [] => true
  | _ + 1, [], _ :: _ => false
  | fuel + 1, q :: ps, [] =>
    if q = '*' then globMatchFuel fuel ps [] else false
  | fuel + 1, q :: ps, c :: s2 =>
    if q = '*' then
      globMatchFuel fuel ps (c :: s2) || globMatchFuel fuel (q :: ps) s2
    else
      q == c && globMatchFuel fuel ps s2

/-- Whether the regex built from the glob `p` accepts the string `s`. -/
def globMatch (p s : List Char) : Bool :=
  globMatchFuel (p.length + s.length + 1) p s

/-- The claim's matching relation, stated declaratively: anchored
    full-string comparison in which `*` matches any substring and every
    other character matches itself literally. -/
inductive GMatch : List Char → List Char → Prop where
  | nil : GMatch [] []
  | lit (c : Char) (p s : List Char) (hc : c ≠ '*') (h : GMatch p s) :
      GMatch (c :: p) (c :: s)
  | star (p s1 s2 : List Char) (h : GMatch p s2) : GMatch ('*' :: p) (s1 ++ s2)

theorem GMatch_nil_inv {s : List Char} (h : GMatch [] s) : s = [] := by
  cases h
  rfl

theorem GMatch_cons_inv : ∀ {p s : List Char}, GMatch p s → ∀ q ps, p = q :: ps →
    (q = '*' ∧ ∃ s1 s2, s = s1 ++ s2 ∧ GMatch ps s2) ∨
    (q ≠ '*' ∧ ∃ s2, s = q :: s2 ∧ GMatch ps s2) := by
  intro p s h
  cases h with
  | nil =>
    intro q ps heq
    exact absurd heq (by simp)
  | lit c p' s' hc hg =>
    intro q ps heq
    simp only [List.cons.injEq] at heq
    right
    refine ⟨heq.1 ▸ hc, s', ?_, ?_⟩
    · rw [heq.1]
    · rw [← heq.2]
      exact hg
  | star p' s1 s2 hg =>
    intro q ps heq
    simp only [List.cons.injEq] at heq
    left
    refine ⟨heq.1.symm, s1, s2, rfl, ?_⟩
    rw [← heq.2]
    exact hg

theorem GMatch_star_inv {ps s : List Char} (h : GMatch ('*' :: ps) s) :
    ∃ s1 s2, s = s1 ++ s2 ∧ GMatch ps s2 := by
  rcases GMatch_cons_inv h '*' ps rfl with ⟨_, hx⟩ | ⟨hne, _⟩
  · exact hx
  · exact absurd rfl hne

theorem GMatch_lit_inv {q : Char} {ps s : List Char} (hq : q ≠ '*')
    (h : GMatch (q :: ps) s) : ∃ s2, s = q :: s2 ∧ GMatch ps s2 := by
  rcases GMatch_cons_inv h q ps rfl with ⟨hstar, _⟩ | ⟨_, hx⟩
  · exact absurd hstar hq
  · exact hx

theorem globMatchFuel_iff_GMatch :
    ∀ fuel p s, p.length + s.length < fuel →
      (globMatchFuel fuel p s = true ↔ GMatch p s) := by
  intro fuel
  induction fuel with
  | zero => intro p s h; omega
  | succ fuel ih =>
    intro p s hlen
    cases p with
    | nil =>
      cases s with
      | nil => simp [globMatchFuel, GMatch.nil]
      | cons c s2 =>
        simp only [globMatchFuel, Bool.false_eq_true, false_iff]
        intro h
        exact absurd (GMatch_nil_inv h) (by simp)
    | cons q ps =>
      simp only [List.length_cons] at hlen
      by_cases hq : q = '*'
      · subst hq
        cases s with
        | nil =>
          rw [globMatchFuel, if_pos rfl, ih ps [] (by simp; omega)]
          constructor
          · intro hg
            simpa using GMatch.star ps [] [] hg
          · intro hg
            obtain ⟨s1, s2, heq, hg2⟩ := GMatch_star_inv hg
            have h1 : s1 = [] ∧ s2 = [] := List.append_eq_nil.mp heq.symm
            rw [← h1.2]
            exact hg2
        | cons c s2 =>
          rw [globMatchFuel, if_pos rfl]
          simp only [List.length_cons] at hlen
          constructor
          · intro h
            rcases Bool.or_eq_true_iff.mp h with h1 | h1
            · have hg : GMatch ps (c :: s2) :=
                (ih ps (c :: s2) (by simp; omega)).mp h1
              simpa using GMatch.star ps [] (c :: s2) hg
            · have hg : GMatch ('*' :: ps) s2 :=
                (ih ('*' :: ps) s2 (by simp; omega)).mp h1
              obtain ⟨s1, s2', heq, hg2⟩ := GMatch_star_inv hg
              have hst := GMatch.star ps (c :: s1) s2' hg2
              simp only [List.cons_append] at hst
              rw [← heq] at hst
              exact hst
          · intro h
            obtain ⟨s1, s2', heq, hg⟩ := GMatch_star_inv h
            cases s1 with
            | nil =>
              refine Bool.or_eq_true_iff.mpr (Or.inl ?_)
              simp only [List.nil_append] at heq
              exact (ih ps (c :: s2) (by simp; omega)).mpr (by rw [heq]; exact hg)
            | cons d s1' =>
              refine Bool.or_eq_true_iff.mpr (Or.inr ?_)
              simp only [List.cons_append, List.cons.injEq] at heq
              refine (ih ('*' :: ps) s2 (by simp; omega)).mpr ?_
              rw [heq.2]
              exact GMatch.star ps s1' s2' hg
      · cases s with
        | nil =>
          rw [globMatchFuel, if_neg hq]
          simp only [Bool.false_eq_true, false_iff]
          intro h
          obtain ⟨s2, heq, _⟩ := GMatch_lit_inv hq h
          exact absurd heq (by simp)
        | cons c s2 =>
          rw [globMatchFuel, if_neg hq, Bool.and_eq_true, beq_iff_eq,
            ih ps s2 (by simp only [List.length_cons] at hlen; omega)]
          constructor
          · rintro ⟨hqc, hg⟩
            subst hqc
            exact GMatch.lit q ps s2 hq hg
          · intro h
            obtain ⟨s2', heq, hg⟩ := GMatch_lit_inv hq h
            simp only [List.cons.injEq] at heq
            exact ⟨heq.1.symm, by rw [heq.2]; exact hg⟩

theorem globMatch_iff_GMatch (p s : List Char) :
    globMatch p s = true ↔ GMatch p s :=
  globMatchFuel_iff_GMatch (p.length + s.length + 1) p s (by omega)

/-- `sitemap` configuration (`SitemapConfig` in `types.ts`). -/
structure SitemapConfig where
  hostname : String
  exclude : List String

/-- The characters of a string up to (excluding) the first `/`. -/
def takeUntilSlash : List Char → List Char
  | [] => []
  | c :: cs => if c = '/' then [] else c :: takeUntilSlash cs

/-- The origin prefix of an absolute URL string: everything up to the
    first `/` after the `//` that introduces the authority. -/
def originAux : List Char → List Char
  | [] => []
  | '/' :: '/' :: rest => '/' :: '/' :: takeUntilSlash rest
  | c :: cs => c :: originAux cs

/-- `new URL(route, hostname).href` (the external WHATWG URL library),
    modelled for the path-absolute leading-slash routes this system
    documents: the base's origin followed by the route (other route
    shapes are appended after a `/`, a coarse rendering of relative
    resolution that no claim depends on). -/
def resolveUrl (base route : String) : String :=
  match route.data with
  | '/' :: _ => String.mk (originAux base.data) ++ route
  | _ => String.mk (originAux base.data) ++ "/" ++ route

/-- One sitemap line: ``  <url><loc>URL</loc></url>``. -/
def sitemapEntry (url : String) : String :=
  "  <url><loc>" ++ url ++ "</loc></url>"

/-- The `<url>` lines of `_generateSitemap`: successful results' routes,
    minus those matching any exclude pattern, resolved and wrapped. -/
def sitemapUrls (hostname : String) (exclude : List String)
    (results : List RenderResult) : List String :=
  (((results.filter (fun r => r.success)).map (fun r => r.route)).filter
    (fun route => !(exclude.any (fun p => globMatch p.data route.data)))).map
    (fun route => sitemapEntry (resolveUrl hostname route))

/-- The sitemap document (already starting and ending with non-whitespace,
    so the source's final `.trim()` is the identity). -/
def sitemapXml (urls : List String) : String :=
  "<?xml version=\"1.0\" encoding=\"UTF-8\"?>\n<urlset xmlns=\"http://www.sitemaps.org/schemas/sitemap/0.9\">\n"
    ++ String.intercalate "\n" urls ++ "\n</urlset>"

/-- `StaticGenerator._generateSitemap`: produced only when a sitemap
    config with a truthy (non-empty) hostname is present; `none` means no
    file is written. -/
def generateSitemap (sitemap : Option SitemapConfig)
    (results : List RenderResult) : Option String :=
  match sitemap with
  | none => none
  | some cfg =>
    if cfg.hostname = "" then none
    else some (sitemapXml (sitemapUrls cfg.hostname cfg.exclude results))

/-- C8: the sitemap is generated only when `sitemap.hostname` is
configured; its urlset holds exactly one `<url><loc>` entry per result
that is successful and matches no exclude pattern — matching being the
anchored full-string glob relation `GMatch` (`*` = any substring, all
other characters literal) — each resolved against the hostname, in the
order of the successful-only filtered subset of the result order. -/
theorem C8_sitemap (results : List RenderResult) (hostname : String)
    (exclude : List String) (hh : hostname ≠ "") :
    generateSitemap none results = none ∧
    (∀ ex, generateSitemap (some ⟨"", ex⟩) results = none) ∧
    generateSitemap (some ⟨hostname, exclude⟩) results =
      some (sitemapXml (sitemapUrls hostname exclude results)) ∧
    sitemapUrls hostname exclude results =
      ((results.filter (fun r => r.success)).filter
        (fun r => !(exclude.any (fun p => globMatch p.data r.route.data)))).map
        (fun r => sitemapEntry (resolveUrl hostname r.route)) ∧
    (∀ p s : String, globMatch p.data s.data = true ↔ GMatch p.data s.data) := by
  refine ⟨rfl, fun ex => by simp [generateSitemap], ?_, ?_, ?_⟩
  · rw [generateSitemap, if_neg hh]
  · rw [sitemapUrls, List.filter_map, List.map_map]
    rfl
  · intro p s
    exact globMatch_iff_GMatch p.data s.data

/-- Render results for the spec's sitemap example: `/`, `/admin/x`,
    `/blog/a`, all successful. -/
def sitemapExampleResults : List RenderResult :=
  [{ route := "/", html := "<p>h</p>", outputPath := "index.html", success := true },
   { route := "/admin/x", html := "<p>a</p>", outputPath := "admin/x/index.html", success := true },
   { route := "/blog/a", html := "<p>b</p>", outputPath := "blog/a/index.html", success := true }]

/-- C8, witness: with hostname `https://example.com` and exclude pattern
`/admin/*`, the emitted urlset contains exactly the `/` and `/blog/a`
entries, in result order. -/
theorem C8_sitemap_witness :
    generateSitemap (some ⟨"https://example.com", ["/admin/*"]⟩)
        sitemapExampleResults =
      some (sitemapXml (sitemapUrls "https://example.com" ["/admin/*"]
        sitemapExampleResults)) ∧
    sitemapUrls "https://example.com" ["/admin/*"] sitemapExampleResults =
      [sitemapEntry "https://example.com/",
       sitemapEntry "https://example.com/blog/a"] := by
  refine ⟨(C8_sitemap sitemapExampleResults "https://example.com" ["/admin/*"]
    (by decide)).2.2.1, ?_⟩
  decide

/-! ### Generation orchestration (`StaticGenerator.generate`)

```js
const routes = await this.resolveRoutes();
await this.cleanOutput();
const serverInstance = await server.start(...);
try {
  const renderer = new BrowserRenderer(this.config);
  await renderer.initialize();
  try {
    const results = await this.renderRoutes(renderer, serverInstance.url, routes);
    await this.copyAssets();                 // catches its own errors
    await this._generateSitemap(results);    // writeFile may throw
    await this._generateRobotsTxt(results);  //   "      "     "
    return { total, success, failed, duration, results };
  } finally { await renderer.close(); }
} finally { await serverInstance.close(); }
```

Fallible phases are environment-supplied `Except` outcomes; `writeOutcome`
stands for the per-route `writeHtml` calls inside `renderRoutes` (any of
whose failures aborts the render phase), and `seoOutcome` for the
sitemap/robots writes.  `copyAssets` swallows its own errors and is
total.  Resource acquisitions and releases are recorded as events. -/

/-- Resource lifecycle events of one `generate` run. -/
inductive GEvent where
  | serverStarted
  | browserLaunched
  | browserClosed
  | serverClosed
deriving DecidableEq, Repr

/-- `RenderStats` (`types.ts`); wall-clock `duration` is not modelled. -/
structure RenderStats where
  total : Nat
  success : Nat
  failed : Nat
  duration : Nat
  results : List RenderResult
deriving DecidableEq, Repr

/-- The stats object `generate` returns on the normal path. -/
def mkStats (results : List RenderResult) : RenderStats :=
  { total := results.length,
    success := (results.filter (fun r => r.success)).length,
    failed := results.length - (results.filter (fun r => r.success)).length,
    duration := 0,
    results := results }

/-- One run's environment: the worker, the scheduling configuration, and
    each fallible phase's outcome. -/
structure GenEnv where
  render : String → Nat → RenderResult
  parallel : Nat
  retries : Nat
  resolveOutcome : Except String (List String)
  startOutcome : Except String Unit
  initOutcome : Except String Unit
  writeOutcome : Except String Unit
  seoOutcome : Except String Unit

/-- `StaticGenerator.generate`: the nested `try/finally` structure with
    its event trace.  A resolve or server-start failure aborts before any
    teardown exists; a browser-launch failure skips the inner `finally`
    but still closes the server; every later outcome closes the browser
    and then the server. -/
def generate (env : GenEnv) : Except String RenderStats × List GEvent :=
  match env.resolveOutcome with
  | Except.error e => (Except.error e, [])
  | Except.ok routes =>
    match env.startOutcome with
    | Except.error e => (Except.error e, [])
    | Except.ok _ =>
      let inner : Except String RenderStats × List GEvent :=
        match env.initOutcome with
        | Except.error e => (Except.error e, [])
        | Except.ok _ =>
          let body : Except String RenderStats :=
            match env.writeOutcome with
            | Except.error e => Except.error e
            | Except.ok _ =>
              let results := renderRoutes env.render env.parallel env.retries routes
              match env.seoOutcome with
              | Except.error e => Except.error e
              | Except.ok _ => Except.ok (mkStats results)
          (body, [GEvent.browserLaunched] ++ [GEvent.browserClosed])
      (inner.1, [GEvent.serverStarted] ++ inner.2 ++ [GEvent.serverClosed])

/-- C9: in every run in which route resolution succeeded, the server
started and the browser launched, the event trace is exactly server
start, browser launch, browser close, server close — whatever the render,
write and SEO outcomes — so the browser is closed before the server on
every exit path, normal return or exception. -/
theorem C9_teardown_order (env : GenEnv) (routes : List String)
    (hres : env.resolveOutcome = Except.ok routes)
    (hstart : env.startOutcome = Except.ok ())
    (hinit : env.initOutcome = Except.ok ()) :
    (generate env).2 = [GEvent.serverStarted, GEvent.browserLaunched,
      GEvent.browserClosed, GEvent.serverClosed] ∧
    ∃ pre, (generate env).2 = pre ++ [GEvent.browserClosed, GEvent.serverClosed] := by
  have htr : (generate env).2 = [GEvent.serverStarted, GEvent.browserLaunched,
      GEvent.browserClosed, GEvent.serverClosed] := by
    rw [generate, hres, hstart, hinit]
    rfl
  exact ⟨htr, [GEvent.serverStarted, GEvent.browserLaunched], by rw [htr]; rfl⟩

/-- A run whose sitemap write fails after rendering. -/
def envSeoFails : GenEnv :=
  { render := fun _ => alwaysFailWorker, parallel := 2, retries := 2,
    resolveOutcome := Except.ok ["/"], startOutcome := Except.ok (),
    initOutcome := Except.ok (), writeOutcome := Except.ok (),
    seoOutcome := Except.error "EACCES: sitemap.xml" }

/-- C9, witness: even when the post-render sitemap write throws, the
browser is closed and then the server. -/
theorem C9_teardown_order_witness :
    (generate envSeoFails).2 = [GEvent.serverStarted, GEvent.browserLaunched,
      GEvent.browserClosed, GEvent.serverClosed] :=
  (C9_teardown_order envSeoFails ["/"] rfl rfl rfl).1

/-- C10: whenever `generate` returns normally, the returned stats satisfy
`total = results.length`, `success` = number of successful results,
`failed = total − success` (hence `success + failed = total`), and
`results` holds exactly one entry per resolved route, in order. -/
theorem C10_stats_invariant (env : GenEnv) (routes : List String)
    (stats : RenderStats) (hp : 0 < env.parallel)
    (hres : env.resolveOutcome = Except.ok routes)
    (hok : (generate env).1 = Except.ok stats) :
    stats.results = routes.map (retryWorker env.render env.retries) ∧
    stats.results.length = routes.length ∧
    stats.total = stats.results.length ∧
    stats.success = (stats.results.filter (fun r => r.success)).length ∧
    stats.failed = stats.total - stats.success ∧
    stats.success + stats.failed = stats.total := by
  rw [generate, hres] at hok
  cases hstart : env.startOutcome with
  | error e => rw [hstart] at hok; cases hok
  | ok _ =>
    rw [hstart] at hok
    cases hinit : env.initOutcome with
    | error e => rw [hinit] at hok; cases hok
    | ok _ =>
      rw [hinit] at hok
      cases hwrite : env.writeOutcome with
      | error e => rw [hwrite] at hok; cases hok
      | ok _ =>
        rw [hwrite] at hok
        cases hseo : env.seoOutcome with
        | error e => rw [hseo] at hok; cases hok
        | ok _ =>
          rw [hseo] at hok
          simp only at hok
          have hstats : stats =
              mkStats (renderRoutes env.render env.parallel env.retries routes) :=
            (Except.ok.injEq _ _).mp hok.symm
          subst hstats
          have hmap := renderRoutes_eq_map env.render env.parallel env.retries
            routes hp
          have hflt := List.length_filter_le (fun r => r.success)
            (renderRoutes env.render env.parallel env.retries routes)
          refine ⟨by rw [mkStats, hmap], ?_, rfl, rfl, rfl, ?_⟩
          · simp only [mkStats, hmap, List.length_map]
          · exact Nat.add_sub_cancel' hflt

/-- A fully successful run over three routes with `parallel = 2`. -/
def envThreeRoutes : GenEnv :=
  { render := fun _ => secondTrySucceeds, parallel := 2, retries := 3,
    resolveOutcome := Except.ok ["/", "/about", "/blog"],
    startOutcome := Except.ok (), initOutcome := Except.ok (),
    writeOutcome := Except.ok (), seoOutcome := Except.ok () }

/-- The stats of that run. -/
def statsThreeRoutes : RenderStats :=
  mkStats (renderRoutes (fun _ => secondTrySucceeds) 2 3 ["/", "/about", "/blog"])

/-- C10, witness: a normal three-route run yields one result per route
and consistent counts. -/
theorem C10_stats_invariant_witness :
    statsThreeRoutes.results.length = 3 ∧
    statsThreeRoutes.success + statsThreeRoutes.failed = statsThreeRoutes.total := by
  have h := C10_stats_invariant envThreeRoutes ["/", "/about", "/blog"]
    statsThreeRoutes (by decide) rfl rfl
  exact ⟨h.2.1.trans rfl, h.2.2.2.2.2⟩

end ViteStatic
